import Mathlib

/-!
# Verification of the real-time map frontend's client-side core

A shallow embedding of the reconciliation / geolocation / endpoint-resolution
fragment of the repository, with theorems settling the specified properties.

Source files embedded here:
* the socket module (`resolveSocketUrl`),
* the application component (roster handler, display-order reconciliation,
  `orderedUsers`, outbound throttle, geolocation watch fallback, `focusOnUser`),
* the map component (`LiveMap` focus-target effect).
-/

set_option maxRecDepth 2048

/-- `LiveUser` from `types.ts`: `{ id: string; lat: number; lng: number;
updatedAt: number }`.  Coordinates are modelled as rationals (the client never
does arithmetic on them, only copies and compares), `updatedAt` as epoch
milliseconds. -/
structure LiveUser where
  id : String
  lat : Rat
  lng : Rat
  updatedAt : Nat
deriving DecidableEq

/-- The addition-collecting loop of the `setUserOrder` effect:

```js
const known = new Set(kept);
const additions: string[] = [];
for (const user of users) {
  if (known.has(user.id)) continue;
  additions.push(user.id);
  known.add(user.id);
}
```

`known` is threaded as a list used only through membership tests. -/
def collectAdditions (known : List String) : List LiveUser → List String
  | [] => []
  | u :: rest =>
    if u.id ∈ known then collectAdditions known rest
    else u.id :: collectAdditions (u.id :: known) rest

/-- The `setUserOrder` effect body (App component): given the previous display
order `prev` and the roster snapshot `users`,

```js
const activeIds = new Set(users.map((u) => u.id));
const kept = prev.filter((id) => activeIds.has(id));
...
return [...kept, ...additions];
``` -/
def reconcile (prev : List String) (users : List LiveUser) : List String :=
  let activeIds := users.map (fun u => u.id)
  let kept := prev.filter (fun id => decide (id ∈ activeIds))
  kept ++ collectAdditions kept users

lemma mem_collectAdditions (x : String) :
    ∀ (users : List LiveUser) (known : List String),
      x ∈ collectAdditions known users ↔
        x ∈ users.map (fun u => u.id) ∧ x ∉ known := by
  intro users
  induction users with
  | nil => intro known; simp [collectAdditions]
  | cons u rest ih =>
    intro known
    rw [List.map_cons, List.mem_cons]
    by_cases hk : u.id ∈ known
    · rw [collectAdditions, if_pos hk, ih]
      constructor
      · rintro ⟨hx, hnk⟩
        exact ⟨Or.inr hx, hnk⟩
      · rintro ⟨hx | hx, hnk⟩
        · exact absurd (hx.symm ▸ hk) hnk
        · exact ⟨hx, hnk⟩
    · rw [collectAdditions, if_neg hk, List.mem_cons, ih]
      constructor
      · rintro (hx | ⟨hx, hnk⟩)
        · exact ⟨Or.inl hx, hx.symm ▸ hk⟩
        · exact ⟨Or.inr hx, fun hc => hnk (List.mem_cons.mpr (Or.inr hc))⟩
      · rintro ⟨hx | hx, hnk⟩
        · exact Or.inl hx
        · by_cases hxu : x = u.id
          · exact Or.inl hxu
          · exact Or.inr ⟨hx, fun hc => (List.mem_cons.mp hc).elim hxu hnk⟩

lemma nodup_collectAdditions :
    ∀ (users : List LiveUser) (known : List String),
      (collectAdditions known users).Nodup := by
  intro users
  induction users with
  | nil => intro known; simp [collectAdditions]
  | cons u rest ih =>
    intro known
    by_cases hk : u.id ∈ known
    · rw [collectAdditions, if_pos hk]; exact ih known
    · rw [collectAdditions, if_neg hk]
      refine List.nodup_cons.mpr ⟨?_, ih _⟩
      intro hmem
      exact ((mem_collectAdditions _ _ _).mp hmem).2 (by simp)

/-- With within-snapshot ids unique, the addition loop appends exactly the
snapshot's ids that are not already known, in snapshot order. -/
lemma collectAdditions_eq_filter :
    ∀ (users : List LiveUser) (known : List String),
      (users.map (fun u => u.id)).Nodup →
      collectAdditions known users
        = (users.map (fun u => u.id)).filter (fun id => decide (id ∉ known)) := by
  intro users
  induction users with
  | nil => intro known _; rfl
  | cons u rest ih =>
    intro known h
    rw [List.map_cons, List.nodup_cons] at h
    obtain ⟨hu, hrest⟩ := h
    by_cases hk : u.id ∈ known
    · rw [collectAdditions, if_pos hk, ih _ hrest, List.map_cons, List.filter_cons]
      simp [hk]
    · rw [collectAdditions, if_neg hk, ih _ hrest, List.map_cons, List.filter_cons,
        if_pos (by simp [hk])]
      congr 1
      refine List.filter_congr ?_
      intro a ha
      have hau : a ≠ u.id := fun hc => hu (hc ▸ ha)
      simp [List.mem_cons, hau]

lemma mem_reconcile (x : String) (prev : List String) (users : List LiveUser) :
    x ∈ reconcile prev users ↔ x ∈ users.map (fun u => u.id) := by
  rw [reconcile]
  simp only [List.mem_append, List.mem_filter, mem_collectAdditions,
    decide_eq_true_eq]
  constructor
  · rintro (⟨_, h⟩ | ⟨h, _⟩) <;> exact h
  · intro h
    by_cases hp : x ∈ prev.filter (fun id => decide (id ∈ users.map (fun u => u.id)))
    · exact Or.inl (by simpa using hp)
    · refine Or.inr ⟨h, ?_⟩
      intro hc
      exact hp (by simpa using hc)

lemma nodup_reconcile (prev : List String) (users : List LiveUser)
    (h : prev.Nodup) : (reconcile prev users).Nodup := by
  rw [reconcile]
  refine List.Nodup.append (h.filter _) (nodup_collectAdditions _ _) ?_
  intro x hx hadd
  exact ((mem_collectAdditions _ _ _).mp hadd).2 hx

/-- Roster snapshot `{B, C, D}` used by the spec's worked example. -/
def rosterBCD : List LiveUser :=
  [{ id := "B", lat := 0, lng := 0, updatedAt := 0 },
   { id := "C", lat := 0, lng := 0, updatedAt := 0 },
   { id := "D", lat := 0, lng := 0, updatedAt := 0 }]

/-- Roster snapshot `{A, B, C, D}` used by the spec's worked example. -/
def rosterABCD : List LiveUser :=
  [{ id := "A", lat := 0, lng := 0, updatedAt := 0 },
   { id := "B", lat := 0, lng := 0, updatedAt := 0 },
   { id := "C", lat := 0, lng := 0, updatedAt := 0 },
   { id := "D", lat := 0, lng := 0, updatedAt := 0 }]

/-- Claim C1: the reconciliation step keeps, in their previous relative order,
exactly the previous ids still present in the snapshot, and appends the
snapshot's remaining ids in snapshot order; in particular the two worked
examples of the spec hold. -/
theorem reconcile_next_display_order :
    (∀ (prev : List String) (users : List LiveUser),
        (users.map (fun u => u.id)).Nodup →
        reconcile prev users
          = prev.filter (fun id => decide (id ∈ users.map (fun u => u.id)))
            ++ (users.map (fun u => u.id)).filter (fun id => decide (id ∉ prev)))
    ∧ reconcile ["A", "B", "C"] rosterBCD = ["B", "C", "D"]
    ∧ reconcile ["A", "B", "C"] rosterABCD = ["A", "B", "C", "D"] := by
  refine ⟨?_, by decide, by decide⟩
  intro prev users h
  rw [reconcile, collectAdditions_eq_filter users _ h]
  congr 1
  refine List.filter_congr ?_
  intro a ha
  have : a ∈ prev.filter (fun id => decide (id ∈ users.map (fun u => u.id)))
      ↔ a ∈ prev := by
    rw [List.mem_filter]
    simp only [decide_eq_true_eq]
    exact and_iff_left ha
  simp only [decide_eq_decide]
  exact not_congr this

/-- Claim C3: reconciliation is idempotent for an unchanged roster. -/
theorem reconcile_idempotent (prev : List String) (users : List LiveUser) :
    reconcile (reconcile prev users) users = reconcile prev users := by
  have hfix :
      (reconcile prev users).filter
          (fun id => decide (id ∈ users.map (fun u => u.id)))
        = reconcile prev users := by
    refine List.filter_eq_self.mpr ?_
    intro a ha
    simpa using (mem_reconcile a prev users).mp ha
  have hnil : collectAdditions (reconcile prev users) users = [] := by
    have : ∀ us : List LiveUser, (∀ u ∈ us, u.id ∈ reconcile prev users) →
        collectAdditions (reconcile prev users) us = [] := by
      intro us
      induction us with
      | nil => intro _; rfl
      | cons u rest ih =>
        intro hall
        rw [collectAdditions, if_pos (hall u (by simp))]
        exact ih fun v hv => hall v (by simp [hv])
    refine this users ?_
    intro u hu
    exact (mem_reconcile u.id prev users).mpr (List.mem_map.mpr ⟨u, hu, rfl⟩)
  conv_lhs => rw [reconcile]
  rw [hfix, hnil, List.append_nil]

lemma nodup_foldl_reconcile :
    ∀ (snaps : List (List LiveUser)) (prev : List String),
      prev.Nodup → (snaps.foldl reconcile prev).Nodup := by
  intro snaps
  induction snaps with
  | nil => intro prev h; exact h
  | cons s rest ih =>
    intro prev h
    exact ih _ (nodup_reconcile _ _ h)

/-- Claim C2: folding any sequence of roster snapshots into an initially empty
display order leaves exactly the ids of the latest snapshot, each exactly once
(snapshot ids being unique per active connection). -/
theorem reconcile_fold_exact_latest (snaps : List (List LiveUser))
    (latest : List LiveUser)
    (h : ∀ s ∈ snaps ++ [latest], (s.map (fun u => u.id)).Nodup) :
    ((snaps ++ [latest]).foldl reconcile []).Nodup ∧
    ∀ x, x ∈ (snaps ++ [latest]).foldl reconcile []
        ↔ x ∈ latest.map (fun u => u.id) := by
  have hfold : (snaps ++ [latest]).foldl reconcile []
      = reconcile (snaps.foldl reconcile []) latest := by
    rw [List.foldl_append]
    rfl
  constructor
  · rw [hfold]
    exact nodup_reconcile _ _ (nodup_foldl_reconcile snaps [] (by simp))
  · intro x
    rw [hfold]
    exact mem_reconcile x _ latest

/-- Witness for C2 at a concrete two-snapshot run. -/
theorem reconcile_fold_exact_latest_witness :
    (([rosterABCD] ++ [rosterBCD]).foldl reconcile []).Nodup ∧
    ("B" ∈ ([rosterABCD] ++ [rosterBCD]).foldl reconcile []
        ↔ "B" ∈ rosterBCD.map (fun u => u.id)) :=
  ⟨(reconcile_fold_exact_latest [rosterABCD] rosterBCD (by decide)).1,
   (reconcile_fold_exact_latest [rosterABCD] rosterBCD (by decide)).2 "B"⟩

/-- Witness for C1's universal part at the spec's first worked example. -/
theorem reconcile_next_display_order_witness :
    reconcile ["A", "B", "C"] rosterBCD
      = ["A", "B", "C"].filter
          (fun id => decide (id ∈ rosterBCD.map (fun u => u.id)))
        ++ (rosterBCD.map (fun u => u.id)).filter
          (fun id => decide (id ∉ ["A", "B", "C"])) :=
  reconcile_next_display_order.1 ["A", "B", "C"] rosterBCD (by decide)

/-! ## Endpoint resolution (socket module) -/

/-- JavaScript's `String.prototype.trim`: strip leading and trailing
whitespace.  Written over the character list so it evaluates inside the
kernel. -/
def jsTrim (s : String) : String :=
  ((s.toList.dropWhile Char.isWhitespace).reverse.dropWhile
    Char.isWhitespace).reverse.asString

/-- The page context (`window.location`) as the resolver reads it. -/
structure PageWindow where
  origin : String
  hostname : String
deriving DecidableEq

/-- What the resolver reads off a successfully constructed `URL`:
its `hostname` and its serialisation (`toString()` / `href`). -/
structure ParsedUrl where
  hostname : String
  href : String
deriving DecidableEq

/-- `resolveSocketUrl` from the socket module.  `envRaw` is
`import.meta.env.VITE_SOCKET_URL` (absent or a string), `window` the page
context (absent outside a browser), and `parseUrl` the platform `new URL`
constructor: `none` models the constructor throwing. -/
def resolveSocketUrl (envRaw : Option String) (window : Option PageWindow)
    (parseUrl : String → Option ParsedUrl) : String :=
  let envUrl := envRaw.map jsTrim
  let fallbackUrl :=
    match window with
    | none => "http://localhost:3001"
    | some w => w.origin
  match envUrl with
  | none => fallbackUrl
  | some url =>
    if url = "" then fallbackUrl
    else
      match parseUrl url with
      | none => url
      | some parsed =>
        let isLocalhost :=
          parsed.hostname = "localhost" ∨ parsed.hostname = "127.0.0.1"
            ∨ parsed.hostname = "::1"
        match window with
        | some w =>
          if isLocalhost ∧ w.hostname ≠ "localhost" ∧ w.hostname ≠ "127.0.0.1"
          then w.origin
          else parsed.href
        | none => parsed.href

/-- Endpoint resolution exactly as claim C4 words it: the override back to the
page origin applies when the configured URL's host is loopback (`localhost`,
`127.0.0.1` or `::1`) while the page's own host is *not* loopback, loopback
being the same three names on both sides. -/
def resolveSocketUrlClaim (envRaw : Option String) (w : PageWindow)
    (parseUrl : String → Option ParsedUrl) : String :=
  let envUrl := envRaw.map jsTrim
  match envUrl with
  | none => w.origin
  | some url =>
    if url = "" then w.origin
    else
      match parseUrl url with
      | none => url
      | some parsed =>
        if (parsed.hostname = "localhost" ∨ parsed.hostname = "127.0.0.1"
              ∨ parsed.hostname = "::1")
            ∧ ¬ (w.hostname = "localhost" ∨ w.hostname = "127.0.0.1"
              ∨ w.hostname = "::1")
        then w.origin
        else parsed.href

/-- Endpoint resolution as amended: the code compares the *page* hostname only
against `"localhost"` and `"127.0.0.1"`, so a page served from the IPv6
loopback counts as non-loopback for the override. -/
def resolveSocketUrlAmended (envRaw : Option String) (w : PageWindow)
    (parseUrl : String → Option ParsedUrl) : String :=
  let envUrl := envRaw.map jsTrim
  match envUrl with
  | none => w.origin
  | some url =>
    if url = "" then w.origin
    else
      match parseUrl url with
      | none => url
      | some parsed =>
        if (parsed.hostname = "localhost" ∨ parsed.hostname = "127.0.0.1"
              ∨ parsed.hostname = "::1")
            ∧ w.hostname ≠ "localhost" ∧ w.hostname ≠ "127.0.0.1"
        then w.origin
        else parsed.href

/-- A concrete `new URL` behaviour for the counterexample: only the exact
configured backend string parses. -/
def parseOnlyLocalhost : String → Option ParsedUrl := fun s =>
  if s = "http://localhost:3001"
  then some { hostname := "localhost", href := "http://localhost:3001/" }
  else none

/-- Counterexample to claim C4: with the page served from the IPv6 loopback
`::1` (itself a loopback address) and a configured `http://localhost:3001`,
the code discards the configured URL and returns the page origin, while the
claim's policy keeps the configured URL. -/
theorem resolveSocketUrl_counterexample :
    resolveSocketUrl (some "http://localhost:3001")
        (some { origin := "http://[::1]:5173", hostname := "::1" })
        parseOnlyLocalhost
      = "http://[::1]:5173"
    ∧ resolveSocketUrlClaim (some "http://localhost:3001")
        { origin := "http://[::1]:5173", hostname := "::1" }
        parseOnlyLocalhost
      = "http://localhost:3001/"
    ∧ ("http://[::1]:5173" : String) ≠ "http://localhost:3001/" := by
  refine ⟨by decide, by decide, by decide⟩

/-- Claim C4 as amended: with a page context present, the code's endpoint
resolution agrees everywhere with the claim's policy once the page-side
loopback test is restricted to `localhost` and `127.0.0.1`. -/
theorem resolveSocketUrl_matches_amended (envRaw : Option String)
    (w : PageWindow) (parseUrl : String → Option ParsedUrl) :
    resolveSocketUrl envRaw (some w) parseUrl
      = resolveSocketUrlAmended envRaw w parseUrl := by
  cases envRaw with
  | none => rfl
  | some url =>
    simp only [resolveSocketUrl, resolveSocketUrlAmended, Option.map]

/-! ## Outbound location throttle (watchPosition success callback) -/

/-- `LocationUpdate` from `types.ts`. -/
structure LocationUpdate where
  lat : Rat
  lng : Rat
deriving DecidableEq

/-- The local state the success callback touches: the `me` display state and
the `lastSentAt` ref (initially `useRef(0)`). -/
structure ThrottleState where
  me : Option LocationUpdate
  lastSentAt : Nat
deriving DecidableEq

/-- The state before the first geolocation sample: `useState(null)` for `me`,
`useRef(0)` for `lastSentAt`. -/
def initialThrottleState : ThrottleState := { me := none, lastSentAt := 0 }

/-- One geolocation sample: coordinates plus the `Date.now()` reading inside
the callback. -/
structure GeoSample where
  lat : Rat
  lng : Rat
  now : Nat
deriving DecidableEq

/-- The `watchPosition` success callback, reduced to the state it writes:

```js
setMe({ lat, lng });
const now = Date.now();
if (now - lastSentAt.current < 2000) return;
lastSentAt.current = now;
socket.emit("location:update", { lat, lng });
```

Returns the next state and whether `location:update` was emitted. -/
def onPosition (p : GeoSample) (s : ThrottleState) : ThrottleState × Bool :=
  let s1 : ThrottleState := { s with me := some { lat := p.lat, lng := p.lng } }
  if p.now - s1.lastSentAt < 2000 then (s1, false)
  else ({ s1 with lastSentAt := p.now }, true)

/-- Running the success callback over a stream of samples; one Bool per
sample, `true` when it was transmitted. -/
def runSamples (s : ThrottleState) : List GeoSample → List Bool
  | [] => []
  | p :: rest => (onPosition p s).2 :: runSamples (onPosition p s).1 rest

/-- Modelled from the claim's words: a sample is transmitted iff at least
2000 ms have elapsed since the previously transmitted sample, the first sample
being transmitted immediately; `prevSent` is the time of the last transmitted
sample, if any. -/
def specEmits (prevSent : Option Nat) : List Nat → List Bool
  | [] => []
  | t :: rest =>
    match prevSent with
    | none => true :: specEmits (some t) rest
    | some s =>
      if 2000 ≤ t - s then true :: specEmits (some t) rest
      else false :: specEmits (some s) rest

lemma runSamples_eq_specEmits (samples : List GeoSample) :
    ∀ (m : Option LocationUpdate) (t : Nat),
      runSamples { me := m, lastSentAt := t } samples
        = specEmits (some t) (samples.map (fun p => p.now)) := by
  induction samples with
  | nil => intro m t; rfl
  | cons p rest ih =>
    intro m t
    rw [runSamples, List.map_cons, specEmits]
    by_cases h : p.now - t < 2000
    · rw [if_neg (by omega)]
      have h1 : (onPosition p { me := m, lastSentAt := t }).2 = false := by
        rw [onPosition]; simp [h]
      have h2 : (onPosition p { me := m, lastSentAt := t }).1
          = { me := some { lat := p.lat, lng := p.lng }, lastSentAt := t } := by
        rw [onPosition]; simp [h]
      rw [h1, h2, ih]
    · rw [if_pos (by omega)]
      have h1 : (onPosition p { me := m, lastSentAt := t }).2 = true := by
        rw [onPosition]; simp [h]
      have h2 : (onPosition p { me := m, lastSentAt := t }).1
          = { me := some { lat := p.lat, lng := p.lng }, lastSentAt := p.now } := by
        rw [onPosition]; simp [h]
      rw [h1, h2, ih]

/-- Claim C5: starting from the initial state, transmission follows the
leading-sample-wins 2-second throttle (for realistic clocks, i.e. the first
reading is at least 2000 ms after the epoch); every sample, transmitted or
suppressed, still updates the local `me` display state; and the spec's two
concrete timing scenarios hold. -/
lemma runSamples_init (p : GeoSample) (rest : List GeoSample) (h : 2000 ≤ p.now) :
    runSamples initialThrottleState (p :: rest)
      = specEmits none ((p :: rest).map (fun q => q.now)) := by
  rw [runSamples, List.map_cons, specEmits]
  have h1 : (onPosition p initialThrottleState).2 = true := by
    rw [onPosition, initialThrottleState]
    simp only [Nat.sub_zero]
    rw [if_neg (by omega)]
  have h2 : (onPosition p initialThrottleState).1
      = { me := some { lat := p.lat, lng := p.lng }, lastSentAt := p.now } := by
    rw [onPosition, initialThrottleState]
    simp only [Nat.sub_zero]
    rw [if_neg (by omega)]
  rw [h1, h2, runSamples_eq_specEmits]

theorem throttle_leading_sample_wins :
    (∀ (p : GeoSample) (rest : List GeoSample), 2000 ≤ p.now →
      runSamples initialThrottleState (p :: rest)
        = specEmits none ((p :: rest).map (fun q => q.now)))
    ∧ (∀ (p : GeoSample) (s : ThrottleState),
        ((onPosition p s).1).me = some { lat := p.lat, lng := p.lng })
    ∧ (∀ (la lb lc ld : Rat) (t : Nat), 2000 ≤ t →
        runSamples initialThrottleState
          [{ lat := la, lng := lb, now := t },
           { lat := lc, lng := ld, now := t + 500 }] = [true, false])
    ∧ (∀ (la lb lc ld : Rat) (t : Nat), 2000 ≤ t →
        runSamples initialThrottleState
          [{ lat := la, lng := lb, now := t },
           { lat := lc, lng := ld, now := t + 2100 }] = [true, true]) := by
  refine ⟨runSamples_init, ?_, ?_, ?_⟩
  · intro p s
    rw [onPosition]
    by_cases h : p.now - s.lastSentAt < 2000
    · rw [if_pos h]
    · rw [if_neg h]
  · intro la lb lc ld t h
    rw [runSamples_init _ _ h]
    have h2 : ¬ (2000 ≤ t + 500 - t) := by omega
    simp [specEmits, h2]
  · intro la lb lc ld t h
    rw [runSamples_init _ _ h]
    have h2 : 2000 ≤ t + 2100 - t := by omega
    simp [specEmits, h2]

/-! ## Geolocation acquisition: timeout fallback state machine -/

/-- The `{enableHighAccuracy, timeout, maximumAge}` options passed to
`watchPosition`. -/
structure WatchParams where
  enableHighAccuracy : Bool
  timeout : Nat
  maximumAge : Nat
deriving DecidableEq

/-- `geolocationErrorMessage` from the App component. `code` is the
`GeolocationPositionError` code, `message` its `message` property (used when
the code is none of 1, 2, 3; JS `err.message || fallback` treats the empty
string as absent). -/
def geolocationErrorMessage (code : Nat) (message : String) : String :=
  if code = 1 then "Permissão de geolocalização negada."
  else if code = 2 then "Sinal de geolocalização indisponível."
  else if code = 3 then "Timeout expired. A tentar novamente..."
  else if message ≠ "" then message
  else "Erro ao obter localização."

/-- The state the geolocation effect's error callback reads and writes: the
closure-captured `fallbackMode` flag, the parameters of the active watch, and
the `geoError` UI state. -/
structure WatchState where
  fallbackMode : Bool
  params : WatchParams
  geoError : Option String
deriving DecidableEq

/-- The watch the effect starts on activation: `startWatch(true, 20000, 3000)`
with `fallbackMode = false` and no error shown. -/
def initialWatchState : WatchState :=
  { fallbackMode := false,
    params := { enableHighAccuracy := true, timeout := 20000, maximumAge := 3000 },
    geoError := none }

/-- The parameters of the single fallback tier:
`startWatch(false, 30000, 15000)`. -/
def fallbackParams : WatchParams :=
  { enableHighAccuracy := false, timeout := 30000, maximumAge := 15000 }

/-- What the error callback does besides updating state: either it clears the
current watch and restarts observation under new parameters, or it surfaces
the classified error message to the user. -/
inductive GeoErrorAction where
  | restartWatch (p : WatchParams)
  | reportError (msg : String)
deriving DecidableEq

/-- The `watchPosition` error callback:

```js
if (err.code === 3 && !fallbackMode) {
  fallbackMode = true;
  setGeoError("Timeout expired. A tentar modo de localização padrão...");
  navigator.geolocation.clearWatch(watchId);
  startWatch(false, 30000, 15000);
  return;
}
setGeoError(geolocationErrorMessage(err));
``` -/
def onGeoError (code : Nat) (message : String) (s : WatchState) :
    WatchState × GeoErrorAction :=
  if code = 3 ∧ s.fallbackMode = false then
    ({ fallbackMode := true,
       params := fallbackParams,
       geoError := some "Timeout expired. A tentar modo de localização padrão..." },
     GeoErrorAction.restartWatch fallbackParams)
  else
    ({ s with geoError := some (geolocationErrorMessage code message) },
     GeoErrorAction.reportError (geolocationErrorMessage code message))

/-- Running the error callback over a sequence of geolocation errors
`(code, message)`, collecting the actions taken. -/
def runGeoErrors (s : WatchState) : List (Nat × String) → List GeoErrorAction
  | [] => []
  | e :: rest =>
    (onGeoError e.1 e.2 s).2 :: runGeoErrors (onGeoError e.1 e.2 s).1 rest

/-- How many of the actions restarted observation under new parameters
(automatic downgrades). -/
def countRestarts : List GeoErrorAction → Nat
  | [] => 0
  | GeoErrorAction.restartWatch _ :: rest => countRestarts rest + 1
  | GeoErrorAction.reportError _ :: rest => countRestarts rest

lemma onGeoError_fallbackMode_true (code : Nat) (message : String)
    (s : WatchState) (h : s.fallbackMode = true) :
    (onGeoError code message s).1.fallbackMode = true
    ∧ (onGeoError code message s).2
        = GeoErrorAction.reportError (geolocationErrorMessage code message) := by
  rw [onGeoError, if_neg (by simp [h])]
  exact ⟨h, rfl⟩

lemma countRestarts_runGeoErrors_fallback (events : List (Nat × String)) :
    ∀ s : WatchState, s.fallbackMode = true →
      countRestarts (runGeoErrors s events) = 0 := by
  induction events with
  | nil => intro s _; rfl
  | cons e rest ih =>
    intro s h
    obtain ⟨h1, h2⟩ := onGeoError_fallbackMode_true e.1 e.2 s h
    rw [runGeoErrors, h2, countRestarts]
    exact ih _ h1

lemma countRestarts_runGeoErrors_le_one (events : List (Nat × String)) :
    ∀ s : WatchState, countRestarts (runGeoErrors s events) ≤ 1 := by
  induction events with
  | nil => intro s; simp [runGeoErrors, countRestarts]
  | cons e rest ih =>
    intro s
    by_cases hc : e.1 = 3 ∧ s.fallbackMode = false
    · have hact : (onGeoError e.1 e.2 s).2
          = GeoErrorAction.restartWatch fallbackParams := by
        rw [onGeoError, if_pos hc]
      have hst : (onGeoError e.1 e.2 s).1.fallbackMode = true := by
        rw [onGeoError, if_pos hc]
      rw [runGeoErrors, hact, countRestarts,
        countRestarts_runGeoErrors_fallback rest _ hst]
    · have hact : (onGeoError e.1 e.2 s).2
          = GeoErrorAction.reportError (geolocationErrorMessage e.1 e.2) := by
        rw [onGeoError, if_neg hc]
      rw [runGeoErrors, hact, countRestarts]
      exact ih _

/-- Claim C6: from the high-accuracy tier a first timeout (code 3) switches to
the single fallback tier and restarts the watch (a transient status message,
not a terminal error report); any timeout received while already in the
fallback tier is reported as an error with no further downgrade; observation
starts in the high-accuracy tier `(true, 20000, 3000)`; and over any error
sequence at most one automatic downgrade ever happens. -/
theorem geo_timeout_single_fallback :
    (∀ (s : WatchState) (m : String), s.fallbackMode = false →
      onGeoError 3 m s
        = ({ fallbackMode := true,
             params := fallbackParams,
             geoError :=
               some "Timeout expired. A tentar modo de localização padrão..." },
           GeoErrorAction.restartWatch fallbackParams))
    ∧ (∀ (s : WatchState) (m : String), s.fallbackMode = true →
      onGeoError 3 m s
        = ({ s with geoError := some "Timeout expired. A tentar novamente..." },
           GeoErrorAction.reportError "Timeout expired. A tentar novamente..."))
    ∧ initialWatchState.fallbackMode = false
    ∧ initialWatchState.params
        = { enableHighAccuracy := true, timeout := 20000, maximumAge := 3000 }
    ∧ fallbackParams
        = { enableHighAccuracy := false, timeout := 30000, maximumAge := 15000 }
    ∧ (∀ events : List (Nat × String),
        countRestarts (runGeoErrors initialWatchState events) ≤ 1) := by
  refine ⟨?_, ?_, rfl, rfl, rfl, fun events => countRestarts_runGeoErrors_le_one events _⟩
  · intro s m h
    rw [onGeoError, if_pos ⟨rfl, h⟩]
  · intro s m h
    rw [onGeoError, if_neg (by simp [h])]
    rfl

/-! ## Focus selection (focusOnUser) -/

/-- `MapFocusTarget` from the App component: coordinates plus the token that
forces a camera transition. -/
structure MapFocusTarget where
  lat : Rat
  lng : Rat
  key : Nat
deriving DecidableEq

/-- The two pieces of state `focusOnUser` writes. -/
structure FocusState where
  focusedUserId : Option String
  mapFocusTarget : Option MapFocusTarget
deriving DecidableEq

/-- `focusOnUser` from the App component; `socketId` is `socket.id` (absent
while disconnected), `now` the `Date.now()` reading of the call:

```js
if (user.id === socket.id) return;
setFocusedUserId(user.id);
setMapFocusTarget({ lat: user.lat, lng: user.lng, key: Date.now() });
``` -/
def focusOnUser (socketId : Option String) (now : Nat) (user : LiveUser)
    (s : FocusState) : FocusState :=
  if socketId = some user.id then s
  else
    { focusedUserId := some user.id,
      mapFocusTarget :=
        some { lat := user.lat, lng := user.lng, key := now } }

/-- Counterexample to claim C7: the token is `Date.now()`, so two selections
of the same other participant within the same millisecond produce the *same*
token, not two distinct ones — here both emissions carry key 1000. -/
theorem focusOnUser_same_ms_counterexample :
    (focusOnUser (some "me") 1000 { id := "X", lat := 1, lng := 2, updatedAt := 0 }
        { focusedUserId := none, mapFocusTarget := none }).mapFocusTarget
      = some { lat := 1, lng := 2, key := 1000 }
    ∧ (focusOnUser (some "me") 1000 { id := "X", lat := 1, lng := 2, updatedAt := 0 }
        (focusOnUser (some "me") 1000 { id := "X", lat := 1, lng := 2, updatedAt := 0 }
          { focusedUserId := none, mapFocusTarget := none })).mapFocusTarget
      = some { lat := 1, lng := 2, key := 1000 }
    ∧ (focusOnUser (some "me") 1000 { id := "X", lat := 1, lng := 2, updatedAt := 0 }
        (focusOnUser (some "me") 1000 { id := "X", lat := 1, lng := 2, updatedAt := 0 }
          { focusedUserId := none, mapFocusTarget := none })).mapFocusTarget.map
          (fun t => t.key)
      = (focusOnUser (some "me") 1000 { id := "X", lat := 1, lng := 2, updatedAt := 0 }
          { focusedUserId := none, mapFocusTarget := none }).mapFocusTarget.map
            (fun t => t.key) := by
  refine ⟨by decide, by decide, by decide⟩

/-- Claim C7 as amended: selecting the local identity is a no-op; selecting
another participant records it as focused and emits a Focus Target carrying
the participant's coordinates and the clock reading as token; and two
successive selections produce distinct tokens provided their clock readings
differ (identical coordinates notwithstanding). -/
theorem focusOnUser_spec :
    (∀ (sid : Option String) (now : Nat) (u : LiveUser) (s : FocusState),
      sid = some u.id → focusOnUser sid now u s = s)
    ∧ (∀ (sid : Option String) (now : Nat) (u : LiveUser) (s : FocusState),
      sid ≠ some u.id →
      focusOnUser sid now u s
        = { focusedUserId := some u.id,
            mapFocusTarget :=
              some { lat := u.lat, lng := u.lng, key := now } })
    ∧ (∀ (sid : Option String) (n1 n2 : Nat) (u v : LiveUser) (s : FocusState),
      sid ≠ some u.id → sid ≠ some v.id → n1 ≠ n2 →
      ((focusOnUser sid n2 v (focusOnUser sid n1 u s)).mapFocusTarget.map
          (fun t => t.key))
        ≠ ((focusOnUser sid n1 u s).mapFocusTarget.map (fun t => t.key))) := by
  refine ⟨?_, ?_, ?_⟩
  · intro sid now u s h
    rw [focusOnUser, if_pos h]
  · intro sid now u s h
    rw [focusOnUser, if_neg h]
  · intro sid n1 n2 u v s hu hv hn
    rw [focusOnUser, if_neg hv, focusOnUser, if_neg hu]
    have h2 : n2 ≠ n1 := fun hc => hn hc.symm
    simp [h2]

/-! ## Inbound roster handler (users:update) -/

/-- An inbound `users:update` payload as the handler's runtime check sees it:
either a genuine array of users, or any other JSON value
(`Array.isArray(payload)` false). -/
inductive UsersPayload where
  | array (users : List LiveUser)
  | malformed
deriving DecidableEq

/-- The `users:update` handler:

```js
const handler = (payload) => {
  if (!Array.isArray(payload)) return;
  setUsers(payload);
};
```

It returns the next roster state given the previous one; it never throws. -/
def onUsersUpdate (payload : UsersPayload) (users : List LiveUser) :
    List LiveUser :=
  match payload with
  | UsersPayload.array next => next
  | UsersPayload.malformed => users

/-- Claim C8: a malformed (non-array) payload is discarded silently — the
previous roster, and hence any display order reconciled from it, is unchanged;
an array payload wholly replaces the prior roster. -/
theorem usersUpdate_malformed_discarded :
    (∀ users : List LiveUser, onUsersUpdate UsersPayload.malformed users = users)
    ∧ (∀ (next users : List LiveUser),
        onUsersUpdate (UsersPayload.array next) users = next)
    ∧ (∀ (ord : List String) (users : List LiveUser),
        reconcile ord (onUsersUpdate UsersPayload.malformed users)
          = reconcile ord users) :=
  ⟨fun _ => rfl, fun _ _ => rfl, fun _ _ => rfl⟩

/-! ## Map surface: camera follow on focus change -/

/-- The MapLibre viewport held by `LiveMap` (`center` is `[lng, lat]`). -/
structure Viewport where
  center : Rat × Rat
  zoom : Rat
  bearing : Rat
  pitch : Rat
deriving DecidableEq

/-- The body of the `LiveMap` focus effect:

```js
setViewport((v) => ({
  ...v,
  center: [focusTarget.lng, focusTarget.lat],
  zoom: Math.max(v.zoom, 15),
}));
``` -/
def applyFocusTarget (t : MapFocusTarget) (v : Viewport) : Viewport :=
  { v with center := (t.lng, t.lat), zoom := max v.zoom 15 }

/-- The focus effect as React runs it: its dependency is `focusTarget?.key`,
so the effect body executes when that token differs from the previous render's
token; a null target makes the body return early. -/
def focusEffectStep (prevKey : Option Nat) (t : Option MapFocusTarget)
    (v : Viewport) : Viewport :=
  if t.map (fun x => x.key) = prevKey then v
  else
    match t with
    | none => v
    | some ft => applyFocusTarget ft v

/-- Claim C9: a focus target with a changed token — coordinate equality
playing no role — recenters the viewport on the target, sets the zoom to
`max(previous, 15)` (hence at least 15 and never below the previous zoom) and
leaves bearing and pitch unchanged. -/
theorem focus_effect_recenters (prevKey : Option Nat) (t : MapFocusTarget)
    (v : Viewport) (h : some t.key ≠ prevKey) :
    focusEffectStep prevKey (some t) v
      = { center := (t.lng, t.lat), zoom := max v.zoom 15,
          bearing := v.bearing, pitch := v.pitch }
    ∧ (15 : Rat) ≤ max v.zoom 15
    ∧ v.zoom ≤ max v.zoom 15 := by
  refine ⟨?_, le_max_right _ _, le_max_left _ _⟩
  rw [focusEffectStep, if_neg (by simpa using h)]
  rfl

/-- Witness for C9 at a concrete focus transition. -/
theorem focus_effect_recenters_witness :
    focusEffectStep none
        (some { lat := 1, lng := 2, key := 5 })
        { center := (0, 0), zoom := 13, bearing := 0, pitch := 0 }
      = { center := (2, 1), zoom := max 13 15, bearing := 0, pitch := 0 }
    ∧ (15 : Rat) ≤ max 13 15
    ∧ (13 : Rat) ≤ max 13 15 :=
  focus_effect_recenters none { lat := 1, lng := 2, key := 5 }
    { center := (0, 0), zoom := 13, bearing := 0, pitch := 0 }
    (by simp)

/-! ## Ordered display list (orderedUsers) -/

/-- Lookup in `new Map(users.map((u) => [u.id, u]))`: a JS `Map` built from an
entry list keeps, for each key, the *last* entry, so later duplicates
overwrite earlier ones. -/
def byIdGet (users : List LiveUser) (i : String) : Option LiveUser :=
  match users with
  | [] => none
  | u :: rest =>
    match byIdGet rest i with
    | some v => some v
    | none => if u.id = i then some u else none

/-- The `orderedUsers` memo of the App component:

```js
const byId = new Map(users.map((u) => [u.id, u] as const));
const ordered = userOrder.map((id) => byId.get(id)).filter(Boolean);
if (ordered.length === users.length) return ordered;
const existing = new Set(ordered.map((u) => u.id));
for (const user of users) {
  if (!existing.has(user.id)) ordered.push(user);
}
return ordered;
```

(The `.map(...).filter(Boolean)` pair is a `filterMap`; the append loop never
extends `existing`, so it appends, in roster order, every user whose id is
not among the looked-up ones.) -/
def orderedUsers (users : List LiveUser) (userOrder : List String) :
    List LiveUser :=
  let ordered := userOrder.filterMap (fun i => byIdGet users i)
  if ordered.length = users.length then ordered
  else
    let existing := ordered.map (fun u => u.id)
    ordered ++ users.filter (fun u => decide (u.id ∉ existing))

lemma byIdGet_eq_some :
    ∀ (users : List LiveUser) (i : String) (u : LiveUser),
      byIdGet users i = some u → u ∈ users ∧ u.id = i := by
  intro users
  induction users with
  | nil => intro i u h; simp [byIdGet] at h
  | cons v rest ih =>
    intro i u h
    cases hr : byIdGet rest i with
    | some w =>
      rw [byIdGet, hr] at h
      have hwu : w = u := Option.some.inj h
      obtain ⟨hm, hid⟩ := ih i w hr
      exact ⟨List.mem_cons_of_mem _ (hwu ▸ hm), hwu ▸ hid⟩
    | none =>
      rw [byIdGet, hr] at h
      by_cases hv : v.id = i
      · rw [if_pos hv] at h
        obtain rfl : v = u := Option.some.inj h
        exact ⟨List.mem_cons_self _ _, hv⟩
      · rw [if_neg hv] at h
        exact absurd h (by simp)

lemma byIdGet_of_mem_nodup :
    ∀ (users : List LiveUser), (users.map (fun u => u.id)).Nodup →
      ∀ u ∈ users, byIdGet users u.id = some u := by
  intro users
  induction users with
  | nil => intro _ u hu; simp at hu
  | cons v rest ih =>
    intro hnd u hu
    rw [List.map_cons, List.nodup_cons] at hnd
    obtain ⟨hv, hrest⟩ := hnd
    rw [byIdGet]
    rcases List.mem_cons.mp hu with rfl | hmem
    · have hnone : byIdGet rest u.id = none := by
        cases hr : byIdGet rest u.id with
        | none => rfl
        | some w =>
          obtain ⟨hm, hid⟩ := byIdGet_eq_some rest u.id w hr
          exact absurd (List.mem_map.mpr ⟨w, hm, hid⟩) hv
      rw [hnone]
      simp
    · rw [ih hrest u hmem]

lemma map_id_filterMap_byIdGet (users : List LiveUser) :
    ∀ order : List String,
      ((order.filterMap (fun i => byIdGet users i)).map (fun u => u.id))
        = order.filter (fun i => (byIdGet users i).isSome) := by
  intro order
  induction order with
  | nil => rfl
  | cons a rest ih =>
    rw [List.filterMap_cons, List.filter_cons]
    cases ha : byIdGet users a with
    | none => simpa [ha] using ih
    | some u =>
      have hid : u.id = a := (byIdGet_eq_some users a u ha).2
      simp [ha, hid, ih]

lemma mem_filterMap_byIdGet (users : List LiveUser) (order : List String)
    (hnd : (users.map (fun u => u.id)).Nodup) (u : LiveUser) :
    u ∈ order.filterMap (fun i => byIdGet users i)
      ↔ u ∈ users ∧ u.id ∈ order := by
  rw [List.mem_filterMap]
  constructor
  · rintro ⟨i, hi, hb⟩
    obtain ⟨hm, hid⟩ := byIdGet_eq_some users i u hb
    exact ⟨hm, hid.symm ▸ hi⟩
  · rintro ⟨hm, ho⟩
    exact ⟨u.id, ho, byIdGet_of_mem_nodup users hnd u hm⟩

lemma pick_complete (users : List LiveUser) (order : List String)
    (hnd : (users.map (fun u => u.id)).Nodup) (hord : order.Nodup)
    (hlen : (order.filterMap (fun i => byIdGet users i)).length = users.length) :
    ∀ u ∈ users, u.id ∈ order := by
  intro u hu
  have hids : (order.filterMap (fun i => byIdGet users i)).map (fun u => u.id)
      = order.filter (fun i => (byIdGet users i).isSome) :=
    map_id_filterMap_byIdGet users order
  have hnodup_pickIds :
      ((order.filterMap (fun i => byIdGet users i)).map (fun u => u.id)).Nodup := by
    rw [hids]; exact hord.filter _
  have hsub : ∀ x ∈ (order.filterMap (fun i => byIdGet users i)).map
      (fun u => u.id), x ∈ users.map (fun u => u.id) := by
    intro x hx
    obtain ⟨w, hw, rfl⟩ := List.mem_map.mp hx
    obtain ⟨i, _, hb⟩ := List.mem_filterMap.mp hw
    exact List.mem_map.mpr ⟨w, (byIdGet_eq_some users i w hb).1, rfl⟩
  have hcard : ((order.filterMap (fun i => byIdGet users i)).map
      (fun u => u.id)).toFinset.card = users.length := by
    rw [List.toFinset_card_of_nodup hnodup_pickIds, List.length_map, hlen]
  have hcard2 : (users.map (fun u => u.id)).toFinset.card = users.length := by
    rw [List.toFinset_card_of_nodup hnd, List.length_map]
  have hfs : ((order.filterMap (fun i => byIdGet users i)).map
        (fun u => u.id)).toFinset
      = (users.map (fun u => u.id)).toFinset := by
    apply Finset.eq_of_subset_of_card_le
    · intro x hx
      rw [List.mem_toFinset] at hx ⊢
      exact hsub x hx
    · rw [hcard, hcard2]
  have hmem : u.id ∈ ((order.filterMap (fun i => byIdGet users i)).map
      (fun u => u.id)).toFinset := by
    rw [hfs, List.mem_toFinset]
    exact List.mem_map.mpr ⟨u, hu, rfl⟩
  rw [List.mem_toFinset, hids, List.mem_filter] at hmem
  exact hmem.1

/-- Counterexample to claim C10: with roster `[A, B]` (distinct ids) and the
stale display order `["A", "A"]` (a duplicated id), the derived list is
`[A, A]` — participant B is missing and A appears twice, so the derived list
is neither total nor duplicate-free for arbitrary Display Order lists. -/
theorem orderedUsers_duplicate_order_counterexample :
    orderedUsers
        [{ id := "A", lat := 0, lng := 0, updatedAt := 0 },
         { id := "B", lat := 1, lng := 1, updatedAt := 0 }]
        ["A", "A"]
      = [{ id := "A", lat := 0, lng := 0, updatedAt := 0 },
         { id := "A", lat := 0, lng := 0, updatedAt := 0 }]
    ∧ ({ id := "B", lat := 1, lng := 1, updatedAt := 0 } : LiveUser)
        ∉ orderedUsers
            [{ id := "A", lat := 0, lng := 0, updatedAt := 0 },
             { id := "B", lat := 1, lng := 1, updatedAt := 0 }]
            ["A", "A"]
    ∧ ¬ (orderedUsers
            [{ id := "A", lat := 0, lng := 0, updatedAt := 0 },
             { id := "B", lat := 1, lng := 1, updatedAt := 0 }]
            ["A", "A"]).Nodup := by
  refine ⟨by decide, by decide, by decide⟩

/-- Claim C10 as amended: for a roster with unique ids and a *duplicate-free*
Display Order list (arbitrary otherwise: it may miss roster ids or carry ids
absent from the roster), the derived display list is the order-selected
participants followed by the remaining roster participants in roster order,
contains every roster participant exactly once and nothing else. -/
theorem orderedUsers_total_nodup (users : List LiveUser)
    (userOrder : List String)
    (hnd : (users.map (fun u => u.id)).Nodup) (hord : userOrder.Nodup) :
    orderedUsers users userOrder
      = userOrder.filterMap (fun i => byIdGet users i)
        ++ users.filter (fun u => decide (u.id ∉ userOrder))
    ∧ (orderedUsers users userOrder).Nodup
    ∧ (∀ u, u ∈ orderedUsers users userOrder ↔ u ∈ users) := by
  have hpickmem := mem_filterMap_byIdGet users userOrder hnd
  have hmain : orderedUsers users userOrder
      = userOrder.filterMap (fun i => byIdGet users i)
        ++ users.filter (fun u => decide (u.id ∉ userOrder)) := by
    simp only [orderedUsers]
    by_cases hlen :
        (userOrder.filterMap (fun i => byIdGet users i)).length = users.length
    · rw [if_pos hlen]
      have hnil : users.filter (fun u => decide (u.id ∉ userOrder)) = [] := by
        rw [List.filter_eq_nil_iff]
        intro u hu
        simp only [decide_eq_true_eq, not_not]
        exact pick_complete users userOrder hnd hord hlen u hu
      rw [hnil, List.append_nil]
    · rw [if_neg hlen]
      congr 1
      refine List.filter_congr ?_
      intro u hu
      have hiff : u.id ∈ (userOrder.filterMap (fun i => byIdGet users i)).map
          (fun x => x.id) ↔ u.id ∈ userOrder := by
        rw [map_id_filterMap_byIdGet, List.mem_filter]
        constructor
        · exact fun h => h.1
        · intro h
          refine ⟨h, ?_⟩
          rw [byIdGet_of_mem_nodup users hnd u hu]
          rfl
      simp only [decide_eq_decide]
      exact not_congr hiff
  have hpick_nodup : (userOrder.filterMap (fun i => byIdGet users i)).Nodup := by
    have h1 := hord.filter (fun i => (byIdGet users i).isSome)
    rw [← map_id_filterMap_byIdGet] at h1
    exact h1.of_map _
  have husers_nodup : users.Nodup := hnd.of_map _
  have hnodup : (orderedUsers users userOrder).Nodup := by
    rw [hmain]
    refine List.Nodup.append hpick_nodup (husers_nodup.filter _) ?_
    intro u hu1 hu2
    have h1 := (hpickmem u).mp hu1
    have h2 := (List.mem_filter.mp hu2).2
    simp only [decide_eq_true_eq] at h2
    exact h2 h1.2
  refine ⟨hmain, hnodup, ?_⟩
  intro u
  rw [hmain, List.mem_append, hpickmem, List.mem_filter]
  constructor
  · rintro (⟨h, _⟩ | ⟨h, _⟩) <;> exact h
  · intro h
    by_cases ho : u.id ∈ userOrder
    · exact Or.inl ⟨h, ho⟩
    · exact Or.inr ⟨h, by simpa using ho⟩

/-- Witness for C10's amended statement at a concrete stale order. -/
theorem orderedUsers_total_nodup_witness :
    orderedUsers rosterBCD ["C", "A"]
      = ["C", "A"].filterMap (fun i => byIdGet rosterBCD i)
        ++ rosterBCD.filter (fun u => decide (u.id ∉ ["C", "A"]))
    ∧ (orderedUsers rosterBCD ["C", "A"]).Nodup
    ∧ (∀ u, u ∈ orderedUsers rosterBCD ["C", "A"] ↔ u ∈ rosterBCD) :=
  orderedUsers_total_nodup rosterBCD ["C", "A"] (by decide) (by decide)
